import Mathlib

/-!
Verification of `main.py` from tiff413/extract-land-registry-data.

Strings are modelled as `List Char`.  Python string primitives used by the
script (`strip`, `isspace`, `startswith`, `endswith`, `in`, slicing) are
embedded as explicit list functions.  The fallible segmentation routine is
embedded as `Except String`, a raised exception becoming `Except.error` with
the source's message.  Python dicts with integer keys (the per-record column
map) are embedded as insertion-ordered association lists whose update
operation replaces in place, exactly as a Python dict does.
-/

set_option autoImplicit false

namespace LandRegistry

/-- ASCII whitespace, as recognised by Python's `str.isspace` / `str.strip`
on the ASCII range (the data in this repository is ASCII). -/
def isPySpace (c : Char) : Bool :=
  c = ' ' || c = '\t' || c = '\n' || c = '\x0b' || c = '\x0c' || c = '\r'

/-- Python `s.strip()`: drop whitespace from both ends. -/
def pyStrip (s : List Char) : List Char :=
  ((s.dropWhile isPySpace).reverse.dropWhile isPySpace).reverse

/-- Python `s.isspace()`: `s` is nonempty and every character is whitespace.
Note the empty string is NOT whitespace under this definition. -/
def pyIsSpace (s : List Char) : Bool :=
  !s.isEmpty && s.all isPySpace

/-- `COLUMN_INDICES = [0, 16, 46, 62, 73]` from the source. -/
def COLUMN_INDICES : List Nat := [0, 16, 46, 62, 73]

/-- `FIST_COLUMN_SIGNATURES` from the source (sic, the source's own name). -/
def FIST_COLUMN_SIGNATURES : List (List Char) :=
  ["blue (part of)".data, "plan 1".data, "plan".data, "of".data, ")".data,
   "blue".data, "of)".data]

/-- The normalization prelude of `split_string_into_segments`: prepend one
space when the line has length 72, drop the last 3 characters when it is
longer than 73, otherwise leave it unchanged. -/
def normalizeLine (s : List Char) : List Char :=
  if s.length = 72 then ' ' :: s
  else if 73 < s.length then s.take (s.length - 3)
  else s

/-- The segmentation loop over consecutive pairs of `COLUMN_INDICES`:
`for n in range(len(COLUMN_INDICES)-1): if len(s) <= COLUMN_INDICES[n+1]:
append s[COLUMN_INDICES[n]:]; break else append s[idx[n]:idx[n+1]]`. -/
def segmentAux (s : List Char) : List Nat → List (List Char)
  | a :: b :: rest =>
    if s.length ≤ b then [s.drop a]
    else (s.drop a).take (b - a) :: segmentAux s (b :: rest)
  | _ => []

/-- The body of `split_string_into_segments` after normalization (`main.py`
lines 82-116), applied to the normalized line `t`.  A raised `Exception` is
`Except.error` carrying the source's message.  Python's `s.strip()` is
computed once in the source and used in the short-line branches; being pure,
it is inlined here. -/
def splitCore (t : List Char) : Except String (List (List Char)) :=
  if t.length = 73 ∨ t ∈ FIST_COLUMN_SIGNATURES then
    Except.ok (segmentAux t COLUMN_INDICES)
  else if (List.replicate 27 ' ').isSuffixOf t then
    Except.ok [[], pyStrip t]
  else if (List.replicate 10 ' ').isSuffixOf t then
    if (pyStrip t).length < 30 then
      Except.ok [[], [], pyStrip t]
    else
      Except.ok [[], pyStrip t]
  else if 46 < t.length then
    Except.error "Cannot handle this case yet. Contains either columns 1-3 or 2-4"
  else
    Except.error "Cannot handle this case yet"

/-- `split_string_into_segments` from `main.py`, lines 63-116: normalize the
line, then segment it. -/
def split_string_into_segments (s : List Char) : Except String (List (List Char)) :=
  splitCore (normalizeLine s)

/-- The per-record column map: a Python dict with `Nat` keys, embedded as an
insertion-ordered association list with unique keys. -/
def ColumnMap : Type := List (Nat × List Char)

instance : DecidableEq ColumnMap := by unfold ColumnMap; infer_instance

/-- `d[k] = v` on a Python dict: replace the value in place when the key is
present, append the binding at the end otherwise. -/
def mapSet (m : ColumnMap) (k : Nat) (v : List Char) : ColumnMap :=
  match m with
  | [] => [(k, v)]
  | (k', v') :: rest =>
    if k' = k then (k, v) :: rest else (k', v') :: mapSet rest k v

/-- Python `max` on a list (raises on the empty list, hence `Option`). -/
def pyMax : List Nat → Option Nat
  | [] => none
  | x :: xs => some (xs.foldl max x)

/-- One step of the `for i, line_segment in enumerate(line_segments)` loop
(lines 148-155): skip whitespace-only segments, otherwise strip the segment
and append it to index `i` (with a space separator) or create index `i`. -/
def addSegStep (m : ColumnMap) (p : Nat × List Char) : ColumnMap :=
  if pyIsSpace p.2 then m
  else
    let stripped := pyStrip p.2
    match List.lookup p.1 m with
    | some v => mapSet m p.1 (v ++ ' ' :: stripped)
    | none => mapSet m p.1 stripped

/-- The whole enumerate loop over the segments of one line. -/
def addSegments (m : ColumnMap) (segs : List (List Char)) : ColumnMap :=
  segs.enum.foldl addSegStep m

/-- The per-record mutable state of `parse_json`'s line loop. -/
structure PState where
  map : ColumnMap
  is_note : Bool
  is_failed : Bool
  deriving DecidableEq

def initState : PState := ⟨[], false, false⟩

/-- `"CANCELLED on"` as a character list. -/
def cancelledSub : List Char := "CANCELLED on".data

/-- Python `sub in s`: `sub` occurs contiguously inside `s`. -/
def containsSub (sub s : List Char) : Bool := decide (sub <:+: s)

/-- `"NOTE"` as a character list. -/
def noteWord : List Char := "NOTE".data

/-- Index for a fresh note (lines 165-169): one past the maximum key of the
map, or 0 when the map is empty (`if keys: index = max(keys) + 1 else 0`). -/
def noteIndex (m : ColumnMap) : Nat :=
  match pyMax (m.map Prod.fst) with
  | some k => k + 1
  | none => 0

/-- Processing of one line of `entryText` (lines 131-174 of `main.py`).
`none` models a JSON `null` line.  The `try`/`except` around segmentation
turns any exception there (including the `assert`) into `is_failed := true`;
the `max` on an empty dict in the note-continuation branch is NOT inside a
`try` and so propagates as `Except.error`. -/
def processLine (st : PState) (line : Option (List Char)) : Except String PState :=
  match line with
  | none => Except.ok st
  | some l =>
    if containsSub cancelledSub l then
      Except.ok { st with map := mapSet st.map 0 l }
    else
      let starts_with_note := noteWord.isPrefixOf l
      if starts_with_note = false ∧ st.is_note = false then
        match split_string_into_segments l with
        | Except.ok segs =>
          if segs.length ≤ 4 then
            Except.ok { st with map := addSegments st.map segs }
          else
            Except.ok { st with is_failed := true }
        | Except.error _ => Except.ok { st with is_failed := true }
      else if starts_with_note then
        Except.ok { st with is_note := true, map := mapSet st.map (noteIndex st.map) (pyStrip l) }
      else
        match pyMax (st.map.map Prod.fst) with
        | none => Except.error "max() arg is an empty sequence"
        | some mi =>
          match List.lookup mi st.map with
          | some v => Except.ok { st with map := mapSet st.map mi (v ++ ' ' :: pyStrip l) }
          | none => Except.error "KeyError"

/-- Processing of one record's `entryText` list: fold the line loop, then
emit the accumulated map, or the empty map when some line failed to parse
(lines 126-182 of `main.py`). -/
def parse_entry (lines : List (Option (List Char))) : Except String ColumnMap := do
  let st ← lines.foldlM processLine initState
  if st.is_failed then pure [] else pure st.map

/-- A schedule entry: its `entryText` lines plus its untouched other fields,
kept abstract as `rest`. -/
structure ScheduleEntry (α : Type) where
  entryText : List (Option (List Char))
  rest : α

/-- A processed schedule entry: `entryText` replaced by a column map. -/
structure ParsedScheduleEntry (α : Type) where
  entryText : ColumnMap
  rest : α

/-- One element of the root list: its `leaseschedule.scheduleEntry` list plus
everything else in the record, kept abstract as `rest`. -/
structure ScheduleRecord (α β : Type) where
  scheduleEntry : List (ScheduleEntry α)
  rest : β

structure ParsedScheduleRecord (α β : Type) where
  scheduleEntry : List (ParsedScheduleEntry α)
  rest : β

/-- Processing of one schedule entry: only `entryText` is replaced. -/
def processEntry {α : Type} (e : ScheduleEntry α) :
    Except String (ParsedScheduleEntry α) := do
  let m ← parse_entry e.entryText
  pure ⟨m, e.rest⟩

/-- `parse_json` over the whole collection (lines 119-184 of `main.py`). -/
def parse_json {α β : Type} (root : List (ScheduleRecord α β)) :
    Except String (List (ParsedScheduleRecord α β)) :=
  root.mapM (fun r => do
    let entries ← r.scheduleEntry.mapM processEntry
    pure ⟨entries, r.rest⟩)


/-! ### Concrete inputs used by the witness theorems -/

def c4Input : List Char := List.replicate 73 'a'

def c5a : List Char := List.replicate 72 'x'

def c5b : List Char := List.replicate 76 'y'

def c2BadLine : List Char := "HELLO".data

def c7Line : List Char := "CANCELLED on 01.01.2020".data

def c7State : PState := ⟨[(0, ['o'])], true, false⟩

def c9Root : List (ScheduleRecord Nat Nat) := [⟨[⟨[some [')']], 7⟩], 5⟩]

def c9Out : List (ParsedScheduleRecord Nat Nat) := [⟨[⟨[(0, [')'])], 7⟩], 5⟩]

/-! ### Helper lemmas -/

theorem exceptBind_ok {ε α β : Type} (a : α) (f : α → Except ε β) :
    (Except.ok a >>= f : Except ε β) = f a := rfl

theorem normalizeLine_of_length_72 {s : List Char} (h : s.length = 72) :
    normalizeLine s = ' ' :: s := by
  simp [normalizeLine, h]

theorem normalizeLine_of_length_73 {s : List Char} (h : s.length = 73) :
    normalizeLine s = s := by
  simp [normalizeLine, h]

theorem normalizeLine_of_length_76 {s : List Char} (h : s.length = 76) :
    normalizeLine s = s.take 73 := by
  simp [normalizeLine, h]

theorem mapSet_ne_nil (m : ColumnMap) (k : Nat) (v : List Char) :
    mapSet m k v ≠ [] := by
  match m with
  | [] => simp [mapSet]
  | (k', v') :: rest =>
    unfold mapSet
    split <;> simp

theorem pyMax_mem {l : List Nat} {a : Nat} (h : pyMax l = some a) : a ∈ l := by
  match l with
  | [] => simp [pyMax] at h
  | x :: xs =>
    simp only [pyMax, Option.some.injEq] at h
    subst h
    induction xs generalizing x with
    | nil => simp
    | cons y ys ih =>
      simp only [List.foldl_cons]
      have h2 := ih (max x y)
      rw [List.mem_cons] at h2
      rcases max_choice x y with h | h <;> rcases h2 with h2 | h2 <;>
        simp_all [List.mem_cons]

theorem pyMax_eq_none_iff {l : List Nat} : pyMax l = none ↔ l = [] := by
  cases l <;> simp [pyMax]

theorem lookup_eq_some_of_mem {m : ColumnMap} {k : Nat}
    (h : k ∈ m.map Prod.fst) : ∃ v, List.lookup k m = some v := by
  induction m with
  | nil => simp at h
  | cons p rest ih =>
    by_cases hk : k = p.1
    · exact ⟨p.2, by simp [List.lookup, hk]⟩
    · have hmem : k ∈ rest.map Prod.fst := by
        simp only [List.map_cons, List.mem_cons] at h
        tauto
      obtain ⟨v, hv⟩ := ih hmem
      have hne : (k == p.1) = false := beq_eq_false_iff_ne.mpr hk
      exact ⟨v, by simp [List.lookup, hne, hv]⟩

theorem lookup_mapSet_self (m : ColumnMap) (k : Nat) (v : List Char) :
    List.lookup k (mapSet m k v) = some v := by
  induction m with
  | nil => simp [mapSet, List.lookup]
  | cons p rest ih =>
    unfold mapSet
    split
    · simp [List.lookup]
    · have hne : (k == p.1) = false := by
        simp only [beq_eq_false_iff_ne, ne_eq]
        intro hk
        simp_all
      simp [List.lookup, hne, ih]

theorem replicate_ten_suffix {t : List Char}
    (h : (List.replicate 27 ' ').isSuffixOf t = true) :
    (List.replicate 10 ' ').isSuffixOf t = true := by
  rw [List.isSuffixOf_iff_suffix] at h ⊢
  refine List.IsSuffix.trans ?_ h
  exact ⟨List.replicate 17 ' ', by rw [← List.replicate_add]⟩

theorem segmentAux_bounds (t : List Char) :
    1 ≤ (segmentAux t COLUMN_INDICES).length ∧
      (segmentAux t COLUMN_INDICES).length ≤ 4 := by
  simp only [COLUMN_INDICES, segmentAux]
  split_ifs <;> simp

/-- Loop invariant of the line loop: in note mode the column map is
nonempty. -/
def Inv (st : PState) : Prop := st.is_note = true → st.map ≠ []

/-- Processing one line from an invariant state always succeeds, preserves
the invariant, and never clears the failure flag. -/
theorem processLine_ok_inv (st : PState) (line : Option (List Char))
    (hInv : Inv st) :
    ∃ st', processLine st line = Except.ok st' ∧ Inv st' ∧
      (st.is_failed = true → st'.is_failed = true) := by
  rcases line with _ | l
  · exact ⟨st, rfl, hInv, fun h => h⟩
  by_cases hc : containsSub cancelledSub l = true
  · refine ⟨{ st with map := mapSet st.map 0 l }, ?_,
      fun _ => mapSet_ne_nil _ _ _, fun h => h⟩
    simp [processLine, hc]
  by_cases hsw : noteWord.isPrefixOf l = true
  · refine ⟨{ st with is_note := true, map := mapSet st.map (noteIndex st.map) (pyStrip l) }, ?_,
      fun _ => mapSet_ne_nil _ _ _, fun h => h⟩
    simp [processLine, hc, hsw]
  have hsw' : noteWord.isPrefixOf l = false := by
    cases h : noteWord.isPrefixOf l
    · rfl
    · exact absurd h hsw
  cases hnote : st.is_note with
  | false =>
    cases hsplit : split_string_into_segments l with
    | ok segs =>
      by_cases hle : segs.length ≤ 4
      · refine ⟨{ st with map := addSegments st.map segs }, ?_, ?_, fun h => h⟩
        · simp [processLine, hc, hsw', hnote, hsplit, hle]
        · intro hn
          exact absurd hn (by simp [hnote])
      · refine ⟨{ st with is_failed := true }, ?_, ?_, fun _ => rfl⟩
        · simp [processLine, hc, hsw', hnote, hsplit, hle]
        · intro hn
          exact absurd hn (by simp [hnote])
    | error e =>
      refine ⟨{ st with is_failed := true }, ?_, ?_, fun _ => rfl⟩
      · simp [processLine, hc, hsw', hnote, hsplit]
      · intro hn
        exact absurd hn (by simp [hnote])
  | true =>
    have hmapne : st.map ≠ [] := hInv hnote
    have hkeys : st.map.map Prod.fst ≠ [] := by simpa using hmapne
    cases hmax : pyMax (st.map.map Prod.fst) with
    | none => exact absurd (pyMax_eq_none_iff.mp hmax) hkeys
    | some mi =>
      obtain ⟨v, hv⟩ := lookup_eq_some_of_mem (pyMax_mem hmax)
      refine ⟨{ st with map := mapSet st.map mi (v ++ ' ' :: pyStrip l) }, ?_,
        fun _ => mapSet_ne_nil _ _ _, fun h => h⟩
      simp [processLine, hc, hsw', hnote, hmax, hv]

/-- Folding the line loop from an invariant state always succeeds, preserves
the invariant, and never clears the failure flag. -/
theorem foldlM_ok_inv (lines : List (Option (List Char))) (st : PState)
    (hInv : Inv st) :
    ∃ st', lines.foldlM processLine st = Except.ok st' ∧ Inv st' ∧
      (st.is_failed = true → st'.is_failed = true) := by
  induction lines generalizing st with
  | nil => exact ⟨st, rfl, hInv, fun h => h⟩
  | cons a rest ih =>
    obtain ⟨st1, h1, hInv1, hf1⟩ := processLine_ok_inv st a hInv
    obtain ⟨st2, h2, hInv2, hf2⟩ := ih st1 hInv1
    refine ⟨st2, ?_, hInv2, fun h => hf2 (hf1 h)⟩
    rw [List.foldlM_cons, h1, exceptBind_ok, h2]

theorem bool_false_of_not_true {b : Bool} (h : ¬b = true) : b = false := by
  cases hb : b
  · rfl
  · exact absurd hb h

/-! ### Claim theorems -/

/-- C3: `split_string_into_segments` fails if and only if the normalized
line (one space prepended at length 72, last 3 characters dropped above
length 73) has length different from 73, is not one of the enumerated
first-column signature strings, and does not end with a run of at least 10
spaces. -/
theorem C3_failure_characterization (s : List Char) :
    (∃ e, split_string_into_segments s = Except.error e) ↔
      ((normalizeLine s).length ≠ 73 ∧ normalizeLine s ∉ FIST_COLUMN_SIGNATURES ∧
        (List.replicate 10 ' ').isSuffixOf (normalizeLine s) = false) := by
  unfold split_string_into_segments splitCore
  set t := normalizeLine s with ht
  by_cases hA : t.length = 73 ∨ t ∈ FIST_COLUMN_SIGNATURES
  · rw [if_pos hA]
    constructor
    · rintro ⟨e, he⟩
      exact Except.noConfusion he
    · rintro ⟨h1, h2, _⟩
      rcases hA with h | h
      · exact absurd h h1
      · exact absurd h h2
  · rw [if_neg hA]
    push_neg at hA
    by_cases h27 : (List.replicate 27 ' ').isSuffixOf t = true
    · rw [if_pos h27]
      have h10 := replicate_ten_suffix h27
      constructor
      · rintro ⟨e, he⟩
        exact Except.noConfusion he
      · rintro ⟨_, _, h3⟩
        rw [h10] at h3
        exact Bool.noConfusion h3
    · rw [if_neg h27]
      by_cases h10 : (List.replicate 10 ' ').isSuffixOf t = true
      · rw [if_pos h10]
        constructor
        · rintro ⟨e, he⟩
          by_cases hlen : (pyStrip t).length < 30
          · rw [if_pos hlen] at he
            exact Except.noConfusion he
          · rw [if_neg hlen] at he
            exact Except.noConfusion he
        · rintro ⟨_, _, h3⟩
          rw [h10] at h3
          exact Bool.noConfusion h3
      · rw [if_neg h10]
        constructor
        · intro _
          exact ⟨hA.1, hA.2, bool_false_of_not_true h10⟩
        · intro _
          by_cases h46 : 46 < t.length
          · rw [if_pos h46]
            exact ⟨_, rfl⟩
          · rw [if_neg h46]
            exact ⟨_, rfl⟩

/-- C4: every line of length exactly 73 segments successfully into exactly
the four zones at offsets [0,16), [16,46), [46,62), [62,73), and the
concatenation of the four zones reconstructs the original line. -/
theorem C4_full_width_partition (s : List Char) (h : s.length = 73) :
    split_string_into_segments s =
      Except.ok [s.take 16, (s.drop 16).take 30, (s.drop 46).take 16, s.drop 62] ∧
    s.take 16 ++ ((s.drop 16).take 30 ++ ((s.drop 46).take 16 ++ s.drop 62)) = s := by
  constructor
  · unfold split_string_into_segments
    rw [normalizeLine_of_length_73 h]
    unfold splitCore
    rw [if_pos (Or.inl h)]
    simp [COLUMN_INDICES, segmentAux, h]
  · have h3 : (s.drop 46).take 16 ++ s.drop 62 = s.drop 46 := by
      have hx := List.take_append_drop 16 (s.drop 46)
      rw [List.drop_drop] at hx
      norm_num at hx
      exact hx
    have h2 : (s.drop 16).take 30 ++ s.drop 46 = s.drop 16 := by
      have hx := List.take_append_drop 30 (s.drop 16)
      rw [List.drop_drop] at hx
      norm_num at hx
      exact hx
    rw [h3, h2, List.take_append_drop]

/-- C5: a line of length 72 segments exactly as the same line with one
leading space prepended, and a line of length 76 segments exactly as the
same line with its last 3 characters removed. -/
theorem C5_normalization_equiv (s : List Char) :
    (s.length = 72 → split_string_into_segments s = split_string_into_segments (' ' :: s)) ∧
    (s.length = 76 → split_string_into_segments s = split_string_into_segments (s.take 73)) := by
  constructor
  · intro h
    unfold split_string_into_segments
    rw [normalizeLine_of_length_72 h, normalizeLine_of_length_73 (by simp [h])]
  · intro h
    unfold split_string_into_segments
    have hlen : (s.take 73).length = 73 := by
      rw [List.length_take, h]
      omega
    rw [normalizeLine_of_length_76 h, normalizeLine_of_length_73 hlen]

/-- C8: whenever `split_string_into_segments` returns, the returned sequence
has between 1 and 4 elements, so the assembler's check that there are at
most 4 columns never fires. -/
theorem C8_segment_count (s : List Char) (segs : List (List Char))
    (h : split_string_into_segments s = Except.ok segs) :
    1 ≤ segs.length ∧ segs.length ≤ 4 := by
  unfold split_string_into_segments splitCore at h
  set t := normalizeLine s with ht
  by_cases hA : t.length = 73 ∨ t ∈ FIST_COLUMN_SIGNATURES
  · rw [if_pos hA] at h
    injection h with h2
    rw [← h2]
    exact segmentAux_bounds t
  · rw [if_neg hA] at h
    by_cases h27 : (List.replicate 27 ' ').isSuffixOf t = true
    · rw [if_pos h27] at h
      injection h with h2
      rw [← h2]
      simp
    · rw [if_neg h27] at h
      by_cases h10 : (List.replicate 10 ' ').isSuffixOf t = true
      · rw [if_pos h10] at h
        by_cases hlen : (pyStrip t).length < 30
        · rw [if_pos hlen] at h
          injection h with h2
          rw [← h2]
          simp
        · rw [if_neg hlen] at h
          injection h with h2
          rw [← h2]
          simp
      · rw [if_neg h10] at h
        by_cases h46 : 46 < t.length
        · rw [if_pos h46] at h
          exact Except.noConfusion h
        · rw [if_neg h46] at h
          exact Except.noConfusion h

/-- Invariant propagation along a given successful fold. -/
theorem foldlM_inv_of_eq (lines : List (Option (List Char))) (st0 st1 : PState)
    (hInv : Inv st0) (h : lines.foldlM processLine st0 = Except.ok st1) :
    Inv st1 ∧ (st0.is_failed = true → st1.is_failed = true) := by
  obtain ⟨st2, h2, hInv2, hf2⟩ := foldlM_ok_inv lines st0 hInv
  rw [h] at h2
  injection h2 with h2
  subst h2
  exact ⟨hInv2, hf2⟩

/-- Explicit form of `processLine` on a line that reaches segmentation and
fails: the failure flag is set and nothing else changes. -/
theorem processLine_split_error (st : PState) (l : List Char) (e : String)
    (hc : containsSub cancelledSub l = false)
    (hn : noteWord.isPrefixOf l = false)
    (hnote : st.is_note = false)
    (hsplit : split_string_into_segments l = Except.error e) :
    processLine st (some l) = Except.ok { st with is_failed := true } := by
  simp [processLine, hc, hn, hnote, hsplit]

/-- C2: a record with a line that reaches segmentation and fails produces
the empty column map, whatever the lines before and after it contributed. -/
theorem C2_failure_discards_record (pre post : List (Option (List Char)))
    (l : List Char) (st : PState) (e : String)
    (h1 : pre.foldlM processLine initState = Except.ok st)
    (hc : containsSub cancelledSub l = false)
    (hn : noteWord.isPrefixOf l = false)
    (hnote : st.is_note = false)
    (hsplit : split_string_into_segments l = Except.error e) :
    parse_entry (pre ++ some l :: post) = Except.ok [] := by
  have hInv0 : Inv initState := by
    intro hx
    simp [initState] at hx
  have hInvSt : Inv st := (foldlM_inv_of_eq pre initState st hInv0 h1).1
  have hline : processLine st (some l) = Except.ok { st with is_failed := true } :=
    processLine_split_error st l e hc hn hnote hsplit
  have hInv1 : Inv { st with is_failed := true } := by
    intro hnn
    exact absurd hnn (by simp [hnote])
  obtain ⟨st2, h2, _, hf2⟩ := foldlM_ok_inv post { st with is_failed := true } hInv1
  have hfail2 : st2.is_failed = true := hf2 rfl
  unfold parse_entry
  simp only [List.foldlM_append, List.foldlM_cons, h1, exceptBind_ok, hline, h2]
  rw [hfail2]
  rfl

/-- C10: for every line sequence the fold of the line loop succeeds (in
particular the note-continuation branch never evaluates `max` on an empty
map), and whenever the note flag is set the column map is nonempty. -/
theorem C10_note_mode_nonempty (lines : List (Option (List Char))) :
    ∃ st, lines.foldlM processLine initState = Except.ok st ∧
      (st.is_note = true → st.map ≠ []) := by
  obtain ⟨st, h, hInv, _⟩ := foldlM_ok_inv lines initState (by intro hx; simp [initState] at hx)
  exact ⟨st, h, hInv⟩

/-- C6: the record `["NOTE: A", "continuation of A", "NOTE: B"]` produces
exactly the keys 0 and 1, consecutive and increasing; the first holds
`"NOTE: A continuation of A"` (the continuation was appended) and the
second holds `"NOTE: B"`; the first NOTE line of the empty map landed at
index 0. -/
theorem C6_note_indexing :
    parse_entry [some "NOTE: A".data, some "continuation of A".data, some "NOTE: B".data] =
      Except.ok [(0, "NOTE: A continuation of A".data), (1, "NOTE: B".data)] := by
  rfl

/-- C7: a line containing "CANCELLED on" is stored verbatim (unstripped) at
column index 0, overwriting any existing value there; the note and failure
flags are unchanged and no segmentation happens, whatever the state. -/
theorem C7_cancelled_override (st : PState) (l : List Char)
    (h : containsSub cancelledSub l = true) :
    processLine st (some l) = Except.ok { st with map := mapSet st.map 0 l } ∧
    List.lookup 0 (mapSet st.map 0 l) = some l := by
  refine ⟨?_, lookup_mapSet_self _ _ _⟩
  simp [processLine, h]

/-- C1 (amended): a zone that is whitespace-only and NONempty contributes
nothing to the column map: the enumerate-loop step leaves the map
untouched.  (The original claim also covered empty zones; those are not
skipped, see the counterexample.) -/
theorem C1_whitespace_zone_skipped (m : ColumnMap) (i : Nat) (seg : List Char)
    (h : pyIsSpace seg = true) : addSegStep m (i, seg) = m := by
  simp [addSegStep, h]

/-- C1 counterexample: the line "X" followed by 27 spaces segments
successfully with a blank (empty) first zone, yet the record's column map
does get an entry at key 0, holding the empty value — a blank zone created
a map entry. -/
theorem C1_counterexample :
    split_string_into_segments ('X' :: List.replicate 27 ' ') = Except.ok [[], ['X']] ∧
    parse_entry [some ('X' :: List.replicate 27 ' ')] = Except.ok [(0, []), (1, ['X'])] :=
  ⟨rfl, rfl⟩

/-- C9 helper: a processed entry keeps every field other than `entryText`. -/
theorem processEntry_rest {α : Type} (e : ScheduleEntry α) (p : ParsedScheduleEntry α)
    (h : processEntry e = Except.ok p) : p.rest = e.rest := by
  unfold processEntry at h
  cases hm : parse_entry e.entryText with
  | error err =>
    rw [hm] at h
    exact Except.noConfusion h
  | ok m =>
    rw [hm] at h
    simp only [exceptBind_ok] at h
    injection h with h2
    rw [← h2]

/-- C9 helper: mapping `processEntry` over the entries of one record keeps
all the `rest` fields, in order. -/
theorem mapM_processEntry_rest {α : Type} (es : List (ScheduleEntry α))
    (outs : List (ParsedScheduleEntry α))
    (h : es.mapM processEntry = Except.ok outs) :
    outs.map ParsedScheduleEntry.rest = es.map ScheduleEntry.rest := by
  induction es generalizing outs with
  | nil =>
    simp only [List.mapM_nil] at h
    injection h with h2
    rw [← h2]
    rfl
  | cons a as ih =>
    rw [List.mapM_cons] at h
    cases ha : processEntry a with
    | error err =>
      rw [ha] at h
      exact Except.noConfusion h
    | ok b =>
      rw [ha] at h
      simp only [exceptBind_ok] at h
      cases has : as.mapM processEntry with
      | error err =>
        rw [has] at h
        exact Except.noConfusion h
      | ok bs =>
        rw [has] at h
        simp only [exceptBind_ok] at h
        injection h with h2
        rw [← h2, List.map_cons, List.map_cons, processEntry_rest a b ha, ih bs has]

/-- C9: processing changes at most the `entryText` fields: every other part
of every record, at both the record level and the schedule-entry level, is
identical between input and output. -/
theorem C9_frame_only_entryText {α β : Type} (root : List (ScheduleRecord α β))
    (out : List (ParsedScheduleRecord α β))
    (h : parse_json root = Except.ok out) :
    out.map ParsedScheduleRecord.rest = root.map ScheduleRecord.rest ∧
    out.map (fun r => r.scheduleEntry.map ParsedScheduleEntry.rest) =
      root.map (fun r => r.scheduleEntry.map ScheduleEntry.rest) := by
  induction root generalizing out with
  | nil =>
    unfold parse_json at h
    simp only [List.mapM_nil] at h
    injection h with h2
    rw [← h2]
    exact ⟨rfl, rfl⟩
  | cons r rs ih =>
    unfold parse_json at h
    rw [List.mapM_cons] at h
    cases hes : r.scheduleEntry.mapM processEntry with
    | error err =>
      rw [hes] at h
      exact Except.noConfusion h
    | ok entries =>
      rw [hes] at h
      simp only [exceptBind_ok] at h
      cases hrs : rs.mapM (fun r => do
          let entries ← r.scheduleEntry.mapM processEntry
          pure (⟨entries, r.rest⟩ : ParsedScheduleRecord α β)) with
      | error err =>
        rw [hrs] at h
        exact Except.noConfusion h
      | ok outs =>
        rw [hrs] at h
        simp only [exceptBind_ok] at h
        injection h with h2
        obtain ⟨ih1, ih2⟩ := ih outs (by unfold parse_json; exact hrs)
        rw [← h2, List.map_cons, List.map_cons, List.map_cons, List.map_cons,
          ih1, ih2, mapM_processEntry_rest r.scheduleEntry entries hes]
        exact ⟨rfl, rfl⟩

/-! ### Witnesses -/

/-- Witness for C4 at a concrete length-73 line. -/
theorem C4_witness :
    c4Input.length = 73 ∧
    (split_string_into_segments c4Input =
        Except.ok [c4Input.take 16, (c4Input.drop 16).take 30, (c4Input.drop 46).take 16,
          c4Input.drop 62] ∧
      c4Input.take 16 ++ ((c4Input.drop 16).take 30 ++ ((c4Input.drop 46).take 16 ++
        c4Input.drop 62)) = c4Input) :=
  ⟨rfl, C4_full_width_partition c4Input rfl⟩

/-- Witness for C5 at concrete lines of lengths 72 and 76. -/
theorem C5_witness :
    c5a.length = 72 ∧
    split_string_into_segments c5a = split_string_into_segments (' ' :: c5a) ∧
    c5b.length = 76 ∧
    split_string_into_segments c5b = split_string_into_segments (c5b.take 73) :=
  ⟨rfl, (C5_normalization_equiv c5a).1 rfl, rfl, (C5_normalization_equiv c5b).2 rfl⟩

/-- Witness for C8 at a concrete signature line. -/
theorem C8_witness :
    split_string_into_segments [')'] = Except.ok [[')']] ∧
    (1 ≤ ([[')']] : List (List Char)).length ∧ ([[')']] : List (List Char)).length ≤ 4) :=
  ⟨rfl, C8_segment_count [')'] [[')']] rfl⟩

/-- Witness for C2: a record whose second line is unresolvable, flanked by a
resolvable line, produces the empty map. -/
theorem C2_witness :
    ([] : List (Option (List Char))).foldlM processLine initState = Except.ok initState ∧
    containsSub cancelledSub c2BadLine = false ∧
    noteWord.isPrefixOf c2BadLine = false ∧
    initState.is_note = false ∧
    split_string_into_segments c2BadLine = Except.error "Cannot handle this case yet" ∧
    parse_entry ([] ++ some c2BadLine :: [some [')']]) = Except.ok [] :=
  ⟨rfl, by decide, rfl, rfl, rfl,
    C2_failure_discards_record [] [some [')']] c2BadLine initState
      "Cannot handle this case yet" rfl (by decide) rfl rfl rfl⟩

/-- Witness for C7 at a concrete cancelled line over a nonempty state. -/
theorem C7_witness :
    containsSub cancelledSub c7Line = true ∧
    (processLine c7State (some c7Line) =
        Except.ok { c7State with map := mapSet c7State.map 0 c7Line } ∧
      List.lookup 0 (mapSet c7State.map 0 c7Line) = some c7Line) :=
  ⟨by decide, C7_cancelled_override c7State c7Line (by decide)⟩

/-- Witness for C1 (amended) at a concrete whitespace-only zone. -/
theorem C1_witness :
    pyIsSpace [' '] = true ∧
    addSegStep [(0, ['a'])] (1, [' ']) = [(0, ['a'])] :=
  ⟨by decide, C1_whitespace_zone_skipped [(0, ['a'])] 1 [' '] (by decide)⟩

/-- Witness for C9 at a concrete one-record collection. -/
theorem C9_witness :
    parse_json c9Root = Except.ok c9Out ∧
    (c9Out.map ParsedScheduleRecord.rest = c9Root.map ScheduleRecord.rest ∧
      c9Out.map (fun r => r.scheduleEntry.map ParsedScheduleEntry.rest) =
        c9Root.map (fun r => r.scheduleEntry.map ScheduleEntry.rest)) :=
  ⟨rfl, C9_frame_only_entryText c9Root c9Out rfl⟩

end LandRegistry

